import Mathlib

/-!
Verification development for the subjs crawler (src/runner/subjs/runner.go).

The Go source is shallowly embedded below.  Pure string manipulation
(`resolveScriptURL`, `isWebpackBundle`, the regex-based chunk extractors,
`parseJSMap`) is translated directly.  The network, the HTML parser
(goquery) and `url.Parse` are external effects and are modelled as oracles
(`Net`): a page is represented by its parsed structure (script tags with
`src` attribute and text content, div tags with `data-script-src`), a
fetch either yields a body or fails.  the Go call `(&url.URL{Scheme,Host,Path}).String()`
is modelled faithfully, including percent-escaping of host and path.
-/

namespace Subjs

/-- Models `strings.HasPrefix s p` (byte prefix; equivalent to character
prefix on valid UTF-8 text). -/
def hasPfx (s p : String) : Bool := p.data.isPrefixOf s.data

/-- Occurrence of `needle` as a contiguous sublist of the haystack. -/
def hasSubList (needle : List Char) : List Char → Bool
  | [] => needle.isEmpty
  | c :: rest => needle.isPrefixOf (c :: rest) || hasSubList needle (rest)

/-- Models `strings.Contains s sub`. -/
def containsSub (s sub : String) : Bool := hasSubList sub.data s.data

/-- The character `"` (written numerically to keep literals uniform). -/
def quoteChar : Char := Char.ofNat 34

/-- The apostrophe character. -/
def apostChar : Char := Char.ofNat 39

/-- The character `{`. -/
def lbrace : Char := Char.ofNat 123

/-- The character `}`. -/
def rbrace : Char := Char.ofNat 125

/-! ## Model of Go `net/url` URL.String() for a URL built as
`&url.URL{Scheme: scheme, Host: host, Path: path}` (all other fields zero).

Go escapes the host with `encodeHost` mode and the path with `encodePath`
mode; `shouldEscape` leaves alphanumerics and `-_.~` unescaped always, and
per mode a set of reserved punctuation. -/

/-- Characters that the Go function `shouldEscape(c, encodePath)` leaves unescaped. -/
def pathSafeChar (c : Char) : Bool :=
  c.isAlphanum || c = '-' || c = '_' || c = '.' || c = '~' ||
  c = '$' || c = '&' || c = '+' || c = ',' || c = '/' || c = ':' ||
  c = ';' || c = '=' || c = '@'

/-- Characters that the Go function `shouldEscape(c, encodeHost)` leaves unescaped. -/
def hostSafeChar (c : Char) : Bool :=
  c.isAlphanum || c = '-' || c = '_' || c = '.' || c = '~' ||
  c = '!' || c = '$' || c = '&' || c = apostChar || c = '(' || c = ')' ||
  c = '*' || c = '+' || c = ',' || c = ';' || c = '=' || c = ':' ||
  c = '[' || c = ']' || c = '<' || c = '>' || c = quoteChar

/-- Upper-case hex digit, as in the Go table `upperhex`. -/
def hexDigit (n : Nat) : Char :=
  if n < 10 then Char.ofNat (48 + n) else Char.ofNat (65 + (n - 10))

/-- The UTF-8 bytes of a character (as naturals). -/
def utf8Bytes (c : Char) : List Nat :=
  let n := c.toNat
  if n < 128 then [n]
  else if n < 2048 then [192 + n / 64, 128 + n % 64]
  else if n < 65536 then [224 + n / 4096, 128 + (n / 64) % 64, 128 + n % 64]
  else [240 + n / 262144, 128 + (n / 4096) % 64, 128 + (n / 64) % 64, 128 + n % 64]

/-- Percent encoding of one byte, `%XX`. -/
def percentByte (b : Nat) : List Char := ['%', hexDigit (b / 16), hexDigit (b % 16)]

/-- Model of the Go function `escape`: keep safe characters, percent-encode the UTF-8 bytes of
the rest. -/
def escList (safe : Char → Bool) : List Char → List Char
  | [] => []
  | c :: cs =>
    (if safe c then [c] else (utf8Bytes c).foldr (fun b acc => percentByte b ++ acc) []) ++
      escList safe cs

/-- String-level wrapper for `escList`. -/
def escStr (safe : Char → Bool) (s : String) : String := ⟨escList safe s.data⟩

/-- Model of the Go method `URL.EscapedPath()` for a URL with empty `RawPath`. -/
def escapedPath (p : String) : String :=
  if p = "*" then "*" else escStr pathSafeChar p

/-- Model of the Go method `URL.String()` specialized to a URL with only `Scheme`, `Host`
and `Path` set (exactly the struct literal built in `resolveScriptURL`). -/
def urlString (scheme host path : String) : String :=
  let ep := escapedPath path
  let buf1 := if scheme = "" then "" else scheme ++ ":"
  let buf2 := buf1 ++
    (if scheme ≠ "" ∨ host ≠ "" then
      (if host ≠ "" ∨ path ≠ "" then "//" else "") ++ escStr hostSafeChar host
    else "")
  let buf3 := buf2 ++ (if ep ≠ "" ∧ ep.data.head? ≠ some '/' ∧ host ≠ "" then "/" else "")
  let buf4 := buf3 ++
    (if buf3 = "" ∧ (ep.data.takeWhile (fun c => c ≠ '/')).contains ':' then "./" else "")
  buf4 ++ ep

/-! ## The pure helpers of runner.go -/

/-- Direct translation of `resolveScriptURL` from runner.go.  The base URL
is represented by the two fields the function reads. -/
structure GoURL where
  scheme : String
  host : String
deriving DecidableEq

/-- Translation of `resolveScriptURL(baseURL, path)` from runner.go. -/
def resolveScriptURL (base : GoURL) (path : String) : String :=
  if hasPfx path "http://" || hasPfx path "https://" then path
  else if hasPfx path "//" then base.scheme ++ ":" ++ path
  else if hasPfx path "/_next/" || hasPfx path "_next/" then
    base.scheme ++ "://" ++ base.host ++ (if hasPfx path "/" then path else "/" ++ path)
  else
    urlString base.scheme base.host (if hasPfx path "/" then path else "/" ++ path)

/-- Translation of `isWebpackBundle(url)` from runner.go. -/
def isWebpackBundle (u : String) : Bool :=
  containsSub u "webpack" || containsSub u "bundle" ||
  containsSub u "chunks" || containsSub u "_next/static"

/-- The `ensureNextPrefix` closure inside `ProcessWebpackFile`. -/
def ensureNextPfx (path : String) : String :=
  if !(hasPfx path "/_next/") && !(hasPfx path "_next/") then
    if hasPfx path "/" then "/_next" ++ path else "/_next/" ++ path
  else path

/-! ## Regex scanners

The Go package `regexp` (RE2, leftmost-first semantics) is applied to five
fixed patterns in runner.go.  Each is embedded as a direct scanner.  For
these patterns greedy backtracking never changes the result: every
maximal-munch sub-match (`\d+`, `[^"]+`, `[^}]+`) is followed by a literal
whose first character lies outside the munched class, so only the maximal
run can succeed.  The scanners try every start position left to right and
continue after the end of each (nonempty) match, which is exactly
`FindAllString`/`FindAllStringSubmatch` behaviour.  The `fuel` argument
only bounds the recursion; one unit is spent per position and each step
consumes at least one character, so `length + 1` fuel is always enough. -/

/-- Go regexp `\d` (ASCII digits). -/
def isDigitChar (c : Char) : Bool := c.isDigit

/-- Scanner for patterns of the shape `(\d+)SEP([^"]+)"` where `SEP` is a
literal starting with a non-digit.  Used for `(\d+)===e\?"([^"]+)"`
(patterns 1 and 4) and `(\d+):"([^"]+)"` (parseJSMap). -/
def scanPairsAux (sep : List Char) : Nat → List Char → List (String × String)
  | 0, _ => []
  | _, [] => []
  | fuel + 1, l =>
    let ds := l.takeWhile isDigitChar
    let r1 := l.drop ds.length
    if ds ≠ [] ∧ sep.isPrefixOf r1 then
      let r2 := r1.drop sep.length
      let p := r2.takeWhile (fun c => c ≠ quoteChar)
      let r3 := r2.drop p.length
      if p ≠ [] ∧ r3.head? = some quoteChar then
        (⟨ds⟩, ⟨p⟩) :: scanPairsAux sep fuel (r3.drop 1)
      else
        scanPairsAux sep fuel l.tail
    else
      scanPairsAux sep fuel l.tail

/-- All submatches of `(\d+)SEP([^"]+)"` over a string. -/
def scanPairs (sep : List Char) (s : String) : List (String × String) :=
  scanPairsAux sep (s.data.length + 1) s.data

/-- The literal `===e?"` separating id and path in chunk ternaries. -/
def ternSep : List Char := "===e?".data ++ [quoteChar]

/-- The literal `:"` separating key and value in JS object literals. -/
def colonSep : List Char := ":".data ++ [quoteChar]

/-- Helper for `parseJSMap` from runner.go: collect `(\d+):"([^"]+)"` pairs into a
map; a repeated key overwrites its previous value (Go map assignment). -/
def mapInsert (k v : String) : List (String × String) → List (String × String)
  | [] => [(k, v)]
  | (k1, v1) :: rest => if k1 = k then (k, v) :: rest else (k1, v1) :: mapInsert k v rest

/-- Translation of `parseJSMap(jsMapStr)` from runner.go, as an association list with
distinct keys.  (Go iterates its maps in unspecified order; theorems about
pattern 2 below only use order-insensitive facts.) -/
def parseJSMap (s : String) : List (String × String) :=
  (scanPairs colonSep s).foldl (fun m kv => mapInsert kv.1 kv.2 m) []

/-- Literal head of pattern 2: `"static/chunks/"+(({`. -/
def complexLit1 : List Char :=
  quoteChar :: "static/chunks/".data ++ [quoteChar, '+', '(', '(', lbrace]

/-- Literal middle of pattern 2: `})[e]||e)+"."+({`. -/
def complexLit2 : List Char :=
  rbrace :: ")[e]||e)+".data ++ [quoteChar, '.', quoteChar, '+', '(', lbrace]

/-- Literal tail of pattern 2: `})[e]+".js"`. -/
def complexLit3 : List Char :=
  rbrace :: ")[e]+".data ++ [quoteChar, '.', 'j', 's', quoteChar]

/-- First match of the pattern-2 regex
`"(static/chunks/)"\+\(\({([^}]+)}\)\[e\]\|\|e\)\+"\."\+\({([^}]+)}\)\[e\]\+"\.js"`,
returning groups 2 and 3 (the id-map and hash-map object-literal bodies);
group 1 always matches the literal `static/chunks/`. -/
def complexScanAux : Nat → List Char → Option (String × String)
  | 0, _ => none
  | _, [] => none
  | fuel + 1, l =>
    if complexLit1.isPrefixOf l then
      let r1 := l.drop complexLit1.length
      let m1 := r1.takeWhile (fun c => c ≠ rbrace)
      let r2 := r1.drop m1.length
      if m1 ≠ [] ∧ complexLit2.isPrefixOf r2 then
        let r3 := r2.drop complexLit2.length
        let m2 := r3.takeWhile (fun c => c ≠ rbrace)
        let r4 := r3.drop m2.length
        if m2 ≠ [] ∧ complexLit3.isPrefixOf r4 then some (⟨m1⟩, ⟨m2⟩)
        else complexScanAux fuel l.tail
      else complexScanAux fuel l.tail
    else complexScanAux fuel l.tail

/-- String-level wrapper for `complexScanAux`. -/
def complexScan (s : String) : Option (String × String) :=
  complexScanAux (s.data.length + 1) s.data

/-- Literal head of pattern 3: `a.p+"`. -/
def publicPathLit : List Char := "a.p+".data ++ [quoteChar]

/-- All group-1 matches of pattern 3 `a\.p\+"([^"]+\.js)"`: after the
literal, the maximal non-quote run must end in `.js` (with at least one
character before it) and be followed by the closing quote. -/
def scanPublicAux : Nat → List Char → List String
  | 0, _ => []
  | _, [] => []
  | fuel + 1, l =>
    if publicPathLit.isPrefixOf l then
      let r1 := l.drop publicPathLit.length
      let p := r1.takeWhile (fun c => c ≠ quoteChar)
      let r2 := r1.drop p.length
      if 4 ≤ p.length ∧ ['.', 'j', 's'].isSuffixOf p ∧ r2.head? = some quoteChar then
        (⟨p⟩ : String) :: scanPublicAux fuel (r2.drop 1)
      else scanPublicAux fuel l.tail
    else scanPublicAux fuel l.tail

/-- String-level wrapper for `scanPublicAux`. -/
def scanPublic (s : String) : List String :=
  scanPublicAux (s.data.length + 1) s.data

/-- Literal head of pattern 4: `a.u=e=>`. -/
def auLit : List Char := "a.u=e=>".data

/-- First match of pattern 4 `a\.u=e=>([^}]+)`: the maximal non-brace run
after the first viable occurrence of the literal. -/
def scanAuAux : Nat → List Char → Option String
  | 0, _ => none
  | _, [] => none
  | fuel + 1, l =>
    if auLit.isPrefixOf l then
      let m := (l.drop auLit.length).takeWhile (fun c => c ≠ rbrace)
      if m ≠ [] then some ⟨m⟩ else scanAuAux fuel l.tail
    else scanAuAux fuel l.tail

/-- String-level wrapper for `scanAuAux`. -/
def scanAu (s : String) : Option String :=
  scanAuAux (s.data.length + 1) s.data

/-! ## ProcessWebpackFile -/

/-- Candidate chunk paths from pattern 1 (direct ternary chunk map). -/
def pattern1Paths (content : String) : List String :=
  (scanPairs ternSep content).map (fun m => m.2)

/-- Candidate chunk paths from pattern 2 (split id/hash object literals):
for every id in the hash map, `static/chunks/<name>.<hash>.js` with
`<name>` the id-map entry for that id when present, else the raw id. -/
def pattern2Candidates (content : String) : List String :=
  match complexScan content with
  | none => []
  | some (idMapStr, hashMapStr) =>
    let idMap := parseJSMap idMapStr
    let hashMap := parseJSMap hashMapStr
    hashMap.map (fun kv =>
      "static/chunks/" ++ ((idMap.lookup kv.1).getD kv.1) ++ "." ++ kv.2 ++ ".js")

/-- Candidate chunk paths from pattern 3 (public-path concatenation). -/
def pattern3Paths (content : String) : List String := scanPublic content

/-- Candidate chunk paths from pattern 4 (scoped ternary chain). -/
def pattern4Paths (content : String) : List String :=
  match scanAu content with
  | none => []
  | some body => (scanPairs ternSep body).map (fun m => m.2)

/-- All candidate chunk paths of one bundle, in the order the four
pattern blocks of `ProcessWebpackFile` produce them. -/
def webpackCandidatePaths (content : String) : List String :=
  pattern1Paths content ++ pattern2Candidates content ++
    pattern3Paths content ++ pattern4Paths content

/-- The emit-if-unseen loop shared by all four pattern blocks: each
candidate URL is sent once and recorded in the call-local
`processedPaths` set. -/
def emitAll : List String → List String → List String × List String
  | [], seen => ([], seen)
  | c :: cs, seen =>
    if seen.contains c then emitAll cs seen
    else
      let r := emitAll cs (c :: seen)
      (c :: r.1, r.2)

/-- Body of `ProcessWebpackFile` after `url.Parse` of the bundle URL
succeeded: resolve every candidate (after `ensureNextPrefix`) against the
bundle URL and emit it unless this call already did.  The list returned is
the sequence of sends to the results channel. -/
def processWebpackParsed (base : GoURL) (content : String) : List String :=
  (emitAll ((webpackCandidatePaths content).map
      (fun p => resolveScriptURL base (ensureNextPfx p))) []).1

/-- Translation of `ProcessWebpackFile(webpackURL, content, results)` from runner.go;
`parseURL` is the `url.Parse` oracle.  Returns the sends to `results`. -/
def ProcessWebpackFile (webpackURL content : String)
    (parseURL : String → Option GoURL) : List String :=
  match parseURL webpackURL with
  | none => []
  | some base => processWebpackParsed base content

/-! ## Inline-text regex `[(\w./:)]*js`

The class is `(`, ASCII word characters, `.`, `/`, `:`, `)`.  A match at a
position is the maximal class-character run truncated after its last `js`
occurrence (leftmost-first, greedy star backtracking to the literal `js`);
positions without a match are skipped one character at a time, and
scanning resumes after each match (`FindAllString`). -/

/-- Membership in the character class `[(\w./:)]`. -/
def isClassChar (c : Char) : Bool :=
  c.isAlphanum || c = '_' || c = '(' || c = ')' || c = '.' || c = '/' || c = ':'

/-- Length of the longest prefix of the list that ends in `js` (`none` if
there is no such prefix). -/
def lastJsEnd : List Char → Option Nat
  | c1 :: c2 :: rest =>
    match lastJsEnd (c2 :: rest) with
    | some n => some (n + 1)
    | none => if c1 = 'j' ∧ c2 = 's' then some 2 else none
  | _ => none

/-- All matches (`FindAllString`) of `[(\w./:)]*js`. -/
def findTextAux : Nat → List Char → List String
  | 0, _ => []
  | _, [] => []
  | fuel + 1, l =>
    let r := l.takeWhile isClassChar
    match lastJsEnd r with
    | some n => (⟨r.take n⟩ : String) :: findTextAux fuel (l.drop n)
    | none => findTextAux fuel l.tail

/-- All inline-text matches of a script body. -/
def findTextMatches (s : String) : List String :=
  findTextAux (s.data.length + 1) s.data

/-! ## The worker pipeline

A parsed page is the structure goquery hands to the extraction rules; the
network, HTML parsing and `url.Parse` are oracles.  Each send to the
results channel is recorded as an `Emission`; the `prov` tag is model
instrumentation only (Go sends the bare string, recovered by
`fetchOutputs`) and records which extraction rule emitted it. -/

/-- A `<script>` element: its `src` attribute (when present) and its text
content. -/
structure ScriptTag where
  src : Option String
  text : String
deriving DecidableEq

/-- A parsed HTML document: script elements and the `data-script-src`
attributes of div elements, in document order. -/
structure Page where
  scripts : List ScriptTag
  divs : List (Option String)
deriving DecidableEq

/-- External effects: `fetchPage u` is the GET of a seed URL (request
construction, transport and body read collapsed; `none` on any failure),
`parseHTML` is goquery, `parseURL` is `url.Parse` restricted to the two
fields the code reads, `fetchBundle` is the GET of a webpack bundle. -/
structure Net where
  fetchPage : String → Option String
  parseHTML : String → Option Page
  parseURL : String → Option GoURL
  fetchBundle : String → Option String

/-- Which extraction rule produced an emission. -/
inductive Prov
  | scriptSrc
  | inlineText
  | divAttr
  | chunk
deriving DecidableEq

/-- One send to the results channel. -/
structure Emission where
  prov : Prov
  url : String
deriving DecidableEq

/-- True for the extraction rules that consult the per-worker
`processedURLs` set (everything except bundle-chunk emission). -/
def isPageProv : Prov → Bool
  | Prov.chunk => false
  | _ => true

/-- The URLs of the non-chunk emissions: exactly the emissions that the
worker checks against and records in its `processedURLs` set. -/
def pageUrls (es : List Emission) : List String :=
  (es.filter (fun e => isPageProv e.prov)).map (fun e => e.url)

/-- Handling of one inline-text match (the loop body over regex matches in
`fetch`): protocol-relative matches are resolved against the page scheme,
host-rooted ones against scheme and host, anything else is dropped; an
already-processed URL is not re-sent. -/
def textMatchStep (pu : GoURL) (st : List String) (m : String) :
    List Emission × List String :=
  if hasPfx m "//" then
    let js := pu.scheme ++ ":" ++ m
    if st.contains js then ([], st) else ([⟨Prov.inlineText, js⟩], js :: st)
  else if hasPfx m "/" then
    let js := pu.scheme ++ "://" ++ pu.host ++ m
    if st.contains js then ([], st) else ([⟨Prov.inlineText, js⟩], js :: st)
  else ([], st)

/-- The whole inline-text loop of one script element. -/
def processTextMatches (pu : GoURL) (st : List String) :
    List String → List Emission × List String
  | [] => ([], st)
  | m :: ms =>
    let r1 := textMatchStep pu st m
    let r2 := processTextMatches pu r1.2 ms
    (r1.1 ++ r2.1, r2.2)

/-- Processing of one `<script>` element in `fetch`: emit the resolved
`src` (if present, nonempty and unseen), follow it as a webpack bundle
when `isWebpackBundle` holds (a failed bundle fetch returns from the
closure early, skipping the text scan of this element), then scan the text
content.  Chunk emissions of `ProcessWebpackFile` bypass the per-worker
`processedURLs` set. -/
def processScriptTag (net : Net) (pu : GoURL) (st : List String)
    (tag : ScriptTag) : List Emission × List String :=
  match tag.src with
  | none => processTextMatches pu st (findTextMatches tag.text)
  | some js =>
    if js = "" then processTextMatches pu st (findTextMatches tag.text)
    else
      let resolvedJS := resolveScriptURL pu js
      if st.contains resolvedJS then
        processTextMatches pu st (findTextMatches tag.text)
      else
        let st1 := resolvedJS :: st
        if isWebpackBundle resolvedJS then
          match net.fetchBundle resolvedJS with
          | none => ([⟨Prov.scriptSrc, resolvedJS⟩], st1)
          | some body =>
            let chunks := (ProcessWebpackFile resolvedJS body net.parseURL).map
              (fun u => (⟨Prov.chunk, u⟩ : Emission))
            let r2 := processTextMatches pu st1 (findTextMatches tag.text)
            (⟨Prov.scriptSrc, resolvedJS⟩ :: (chunks ++ r2.1), r2.2)
        else
          let r2 := processTextMatches pu st1 (findTextMatches tag.text)
          (⟨Prov.scriptSrc, resolvedJS⟩ :: r2.1, r2.2)

/-- The script-element loop of one page. -/
def processScripts (net : Net) (pu : GoURL) (st : List String) :
    List ScriptTag → List Emission × List String
  | [] => ([], st)
  | tag :: tags =>
    let r1 := processScriptTag net pu st tag
    let r2 := processScripts net pu r1.2 tags
    (r1.1 ++ r2.1, r2.2)

/-- Processing of the `data-script-src` attribute of one `<div>` element. -/
def processDivTag (pu : GoURL) (st : List String) (attr : Option String) :
    List Emission × List String :=
  match attr with
  | none => ([], st)
  | some js =>
    if js = "" then ([], st)
    else
      let resolvedJS := resolveScriptURL pu js
      if st.contains resolvedJS then ([], st)
      else ([⟨Prov.divAttr, resolvedJS⟩], resolvedJS :: st)

/-- The div-element loop of one page. -/
def processDivs (pu : GoURL) (st : List String) :
    List (Option String) → List Emission × List String
  | [] => ([], st)
  | attr :: attrs =>
    let r1 := processDivTag pu st attr
    let r2 := processDivs pu r1.2 attrs
    (r1.1 ++ r2.1, r2.2)

/-- Body of one iteration of the worker loop after the seed was marked
processed: the chain of `continue`-on-error steps followed by the two
extraction passes. -/
def processSeedBody (net : Net) (st : List String) (u : String) :
    List Emission × List String :=
  match net.fetchPage u with
  | none => ([], st)
  | some body =>
    match net.parseHTML body with
    | none => ([], st)
    | some page =>
      match net.parseURL u with
      | none => ([], st)
      | some pu =>
        let r1 := processScripts net pu st page.scripts
        let r2 := processDivs pu r1.2 page.divs
        (r1.1 ++ r2.1, r2.2)

/-- One iteration of the worker loop: skip a seed already processed,
otherwise mark it first and run the body. -/
def processSeed (net : Net) (st : List String) (u : String) :
    List Emission × List String :=
  if st.contains u then ([], st) else processSeedBody net (u :: st) u

/-- The worker loop over the seed URLs it pulls, threading its
`processedURLs` set. -/
def processSeeds (net : Net) (st : List String) :
    List String → List Emission × List String
  | [] => ([], st)
  | u :: us =>
    let r1 := processSeed net st u
    let r2 := processSeeds net r1.2 us
    (r1.1 ++ r2.1, r2.2)

/-- Translation of `fetch(urls, results)` from runner.go: the run of one worker over the seeds
it receives, starting from an empty `processedURLs` set. -/
def fetch (net : Net) (seeds : List String) : List Emission :=
  (processSeeds net [] seeds).1

/-- The strings a worker actually sends to the results channel. -/
def fetchOutputs (net : Net) (seeds : List String) : List String :=
  (fetch net seeds).map (fun e => e.url)

/-! ## Run -/

/-- The configuration fields `Run` and `New` read. -/
structure Options where
  inputFile : String
  workers : Nat
  timeout : Nat
  userAgent : String

/-- Translation of `Run()` from runner.go, with the file system as an oracle mapping a
path to the lines of the file (or `none` when it cannot be opened) and
standard input as a line list.  Empty lines are skipped; the worker pool
is modelled by its sequential linearization (the per-worker claims below
are about the run of a single worker). -/
def Run (opts : Options) (fs : String → Option (List String))
    (stdin : List String) (net : Net) : Except String (List Emission) :=
  if opts.inputFile = "" then
    Except.ok (fetch net (stdin.filter (fun l => !(l == ""))))
  else
    match fs opts.inputFile with
    | none => Except.error "Could not open input file"
    | some ls => Except.ok (fetch net (ls.filter (fun l => !(l == ""))))

/-! ## Concrete oracle instances used by closed theorems -/

/-- Page of the C2 end-to-end scenario: one script tag referencing the
webpack bundle, no inline text, no divs. -/
def exPage : Page := ⟨[⟨some "/_next/static/chunks/webpack-abc.js", ""⟩], []⟩

/-- Net of the C2 end-to-end scenario. -/
def exNet : Net where
  fetchPage := fun u => if u = "https://ex.com/" then some "EXBODY" else none
  parseHTML := fun b => if b = "EXBODY" then some exPage else none
  parseURL := fun _ => some ⟨"https", "ex.com"⟩
  fetchBundle := fun u =>
    if u = "https://ex.com/_next/static/chunks/webpack-abc.js" then
      some "123===e?\x22static/chunks/123-xyz.js\x22"
    else none

/-- Page with two distinct webpack bundles whose contents reference the
same chunk. -/
def dupPage : Page := ⟨[⟨some "/w1webpack.js", ""⟩, ⟨some "/w2webpack.js", ""⟩], []⟩

/-- Net in which one worker processes two bundles that both reference
`static/chunks/x.js`. -/
def dupNet : Net where
  fetchPage := fun u => if u = "https://ex.com/" then some "DUPBODY" else none
  parseHTML := fun b => if b = "DUPBODY" then some dupPage else none
  parseURL := fun _ => some ⟨"https", "ex.com"⟩
  fetchBundle := fun _ => some "1===e?\x22static/chunks/x.js\x22"

/-- A seed URL that is also a chunk URL referenced by the bundle below. -/
def selfSeed : String := "https://ex.com/_next/static/chunks/x.js"

/-- Page whose single script tag points at a bundle referencing the seed
itself as a chunk. -/
def selfPage : Page := ⟨[⟨some "/wwebpack.js", ""⟩], []⟩

/-- Net in which the bundle found on the seed page references the seed
URL itself. -/
def selfNet : Net where
  fetchPage := fun u => if u = selfSeed then some "SELFBODY" else none
  parseHTML := fun b => if b = "SELFBODY" then some selfPage else none
  parseURL := fun _ => some ⟨"https", "ex.com"⟩
  fetchBundle := fun _ => some "1===e?\x22static/chunks/x.js\x22"

/-- Minimal page with one plain (non-bundle) script reference. -/
def wPage : Page := ⟨[⟨some "x.js", ""⟩], []⟩

/-- Minimal net used by witnesses: one page with one script. -/
def wNet : Net where
  fetchPage := fun u => if u = "https://a/" then some "WBODY" else none
  parseHTML := fun b => if b = "WBODY" then some wPage else none
  parseURL := fun _ => some ⟨"https", "a"⟩
  fetchBundle := fun _ => none

/-- Bundle content of the C3 scenario: id-map `{1:"a"}` and hash-map
`{1:"h1",2:"h2"}` in the pattern-2 shape. -/
def c3content : String :=
  "\x22static/chunks/\x22+((\x7b1:\x22a\x22\x7d)[e]||e)+\x22.\x22+(\x7b1:\x22h1\x22,2:\x22h2\x22\x7d)[e]+\x22.js\x22"

/-! ## Proof-side predicate

`StepOK st out st'` is the invariant every page-level processing step of
one worker preserves: the `processedURLs` set only grows, the non-chunk
emissions of the step are pairwise distinct, and each of them was not yet
processed when the step began but is processed when it ends. -/

/-- Invariant of one processing step of the worker pipeline. -/
def StepOK (st : List String) (out : List Emission) (st' : List String) : Prop :=
  (∀ u, u ∈ st → u ∈ st') ∧ (pageUrls out).Nodup ∧
    ∀ u, u ∈ pageUrls out → u ∉ st ∧ u ∈ st'

/-! ## Helper lemmas about prefixes and escaping -/

theorem hasPfx_iff (s p : String) : hasPfx s p = true ↔ ∃ t, p.data ++ t = s.data := by
  simp [hasPfx, List.isPrefixOf_iff_prefix, List.IsPrefix]

theorem hasPfx_head_ne (s q : String) (c : Char) (cs : List Char) (d : Char) (ds : List Char)
    (hs : s.data = c :: cs) (hq : q.data = d :: ds) (hne : (d == c) = false) :
    hasPfx s q = false := by
  simp only [hasPfx, hs, hq, List.isPrefixOf, hne, Bool.false_and]

theorem hasPfx_two_ne (s q : String) (c1 c2 : Char) (cs : List Char) (d2 : Char) (ds : List Char)
    (hs : s.data = c1 :: c2 :: cs) (hq : q.data = c1 :: d2 :: ds) (hne : (d2 == c2) = false) :
    hasPfx s q = false := by
  simp only [hasPfx, hs, hq, List.isPrefixOf, hne, BEq.refl, Bool.true_and, Bool.false_and,
    Bool.and_false]

theorem escList_id (safe : Char → Bool) (l : List Char) (h : ∀ c ∈ l, safe c = true) :
    escList safe l = l := by
  induction l with
  | nil => rfl
  | cons c cs ih =>
    have hc : safe c = true := h c (by simp)
    simp [escList, hc, ih (fun d hd => h d (by simp [hd]))]

theorem escStr_id (safe : Char → Bool) (s : String) (h : ∀ c ∈ s.data, safe c = true) :
    escStr safe s = s := by
  apply String.ext
  simpa [escStr] using escList_id safe s.data h

theorem urlString_safe (scheme host p : String) (hs : scheme ≠ "")
    (hh : ∀ c ∈ host.data, hostSafeChar c = true)
    (hp : ∀ c ∈ p.data, pathSafeChar c = true)
    (hhead : p.data.head? = some '/') :
    urlString scheme host p = scheme ++ "://" ++ host ++ p := by
  have hpstar : p ≠ "*" := by
    intro h
    rw [h] at hhead
    simp at hhead
  have hep : escapedPath p = p := by
    rw [escapedPath, if_neg hpstar]
    exact escStr_id _ _ hp
  have hpne : p ≠ "" := by
    intro h
    rw [h] at hhead
    simp at hhead
  have hhost : escStr hostSafeChar host = host := escStr_id _ _ hh
  have hbufne : scheme ++ ":" ++ ("//" ++ host) ≠ "" := by
    intro h
    have := congrArg String.data h
    simp at this
  unfold urlString
  simp only [hep, hhost, hs, hpne, hhead, ne_eq, not_false_eq_true, or_true, true_or,
    if_true, if_false, reduceCtorEq, not_true_eq_false, and_false, false_and, if_neg,
    String.append_empty]
  rw [if_neg (by simp [hbufne])]
  apply String.ext
  simp

/-! ## Claim theorems for the URL resolver (C5, C6, C7) -/

/-- Claim C5: for every base URL and every path that is already an
absolute URL (an explicit `http://` or `https://` scheme, which is how
the spec defines the absolute form), `resolveScriptURL` returns the path
unchanged. -/
theorem C5_resolve_absolute_fixed_point (base : GoURL) (path : String)
    (h : hasPfx path "http://" = true ∨ hasPfx path "https://" = true) :
    resolveScriptURL base path = path := by
  unfold resolveScriptURL
  rcases h with h | h <;> simp [h]

/-- Witness for C5 at a concrete absolute URL. -/
theorem C5_witness :
    resolveScriptURL ⟨"https", "ex.com"⟩ "http://cdn.example/x.js" = "http://cdn.example/x.js" :=
  C5_resolve_absolute_fixed_point _ _ (Or.inl (by decide))

/-- Claim C6: for every base URL and every path beginning with `//`,
`resolveScriptURL` returns the base scheme, a colon, and the path. -/
theorem C6_resolve_protocol_relative (base : GoURL) (path : String)
    (h : hasPfx path "//" = true) :
    resolveScriptURL base path = base.scheme ++ ":" ++ path := by
  obtain ⟨t, ht⟩ := (hasPfx_iff path "//").1 h
  have hdata : path.data = '/' :: '/' :: t := by
    rw [← ht]; rfl
  have h1 : hasPfx path "http://" = false :=
    hasPfx_head_ne path "http://" '/' ('/' :: t) 'h' _ hdata rfl (by decide)
  have h2 : hasPfx path "https://" = false :=
    hasPfx_head_ne path "https://" '/' ('/' :: t) 'h' _ hdata rfl (by decide)
  unfold resolveScriptURL
  simp [h, h1, h2]

/-- Witness for C6 at a concrete protocol-relative path. -/
theorem C6_witness :
    resolveScriptURL ⟨"https", "ex.com"⟩ "//cdn.example/x.js" = "https://cdn.example/x.js" := by
  have := C6_resolve_protocol_relative ⟨"https", "ex.com"⟩ "//cdn.example/x.js" (by decide)
  simpa using this

/-- Counterexample to claim C7 as stated: the generic branch ends in the Go
method `url.URL.String()`, which percent-escapes the path (space becomes `%20`),
and an empty base scheme yields `//host...`, not `://host...`.  Both
inputs satisfy the precondition of the claim (none of the five prefixes). -/
theorem C7_counterexample :
    (hasPfx "a b.js" "http://" = false ∧ hasPfx "a b.js" "https://" = false ∧
      hasPfx "a b.js" "//" = false ∧ hasPfx "a b.js" "/_next/" = false ∧
      hasPfx "a b.js" "_next/" = false) ∧
    resolveScriptURL ⟨"https", "ex.com"⟩ "a b.js" = "https://ex.com/a%20b.js" ∧
    resolveScriptURL ⟨"https", "ex.com"⟩ "a b.js" ≠ "https" ++ "://" ++ "ex.com" ++ "/a b.js" ∧
    resolveScriptURL ⟨"", "ex.com"⟩ "a.js" ≠ "" ++ "://" ++ "ex.com" ++ "/a.js" := by
  refine ⟨by decide, by decide, by decide, by decide⟩

/-- Claim C7 (amended): for a path beginning with none of `http://`,
`https://`, `//`, `/_next/`, `_next/`, and provided the base scheme is
nonempty and host and path consist of characters the Go URL encoder leaves
unescaped, the result is `scheme://host` ++ path-with-leading-slash; the
path component of the base URL itself is discarded.  (In general the host and
path appear percent-escaped, and an empty scheme drops the colon.) -/
theorem C7_resolve_generic_amended (base : GoURL) (path : String)
    (h1 : hasPfx path "http://" = false) (h2 : hasPfx path "https://" = false)
    (h3 : hasPfx path "//" = false) (h4 : hasPfx path "/_next/" = false)
    (h5 : hasPfx path "_next/" = false)
    (hs : base.scheme ≠ "")
    (hh : ∀ c ∈ base.host.data, hostSafeChar c = true)
    (hp : ∀ c ∈ path.data, pathSafeChar c = true) :
    resolveScriptURL base path =
      base.scheme ++ "://" ++ base.host ++ (if hasPfx path "/" then path else "/" ++ path) := by
  have hbranch : resolveScriptURL base path =
      urlString base.scheme base.host (if hasPfx path "/" then path else "/" ++ path) := by
    unfold resolveScriptURL
    simp [h1, h2, h3, h4, h5]
  rw [hbranch]
  apply urlString_safe
  · exact hs
  · exact hh
  · intro c hc
    by_cases hsl : hasPfx path "/"
    · rw [if_pos hsl] at hc; exact hp c hc
    · rw [if_neg hsl] at hc
      simp at hc
      rcases hc with hc | hc
      · rw [hc]; decide
      · exact hp c hc
  · by_cases hsl : hasPfx path "/"
    · rw [if_pos hsl]
      obtain ⟨t, ht⟩ := (hasPfx_iff path "/").1 hsl
      rw [← ht]; rfl
    · rw [if_neg hsl]; rfl

/-- Witness for the amended C7 at a concrete relative path. -/
theorem C7_witness :
    resolveScriptURL ⟨"https", "ex.com"⟩ "foo/bar.js" =
      "https" ++ "://" ++ "ex.com" ++ "/foo/bar.js" := by
  have := C7_resolve_generic_amended ⟨"https", "ex.com"⟩ "foo/bar.js"
    (by decide) (by decide) (by decide) (by decide) (by decide) (by decide)
    (by decide) (by decide)
  simpa using this

/-! ## Invariant lemmas for the per-worker dedup set -/

theorem contains_iff (l : List String) (a : String) : l.contains a = true ↔ a ∈ l :=
  List.elem_iff

theorem contains_eq_true {l : List String} {a : String} (h : a ∈ l) : l.contains a = true :=
  (contains_iff l a).2 h

theorem contains_ne_true {l : List String} {a : String} (h : a ∉ l) :
    ¬ l.contains a = true :=
  fun hc => h ((contains_iff l a).1 hc)

theorem pageUrls_append (a b : List Emission) :
    pageUrls (a ++ b) = pageUrls a ++ pageUrls b := by
  simp [pageUrls]

theorem pageUrls_chunks (l : List String) :
    pageUrls (l.map (fun u => (⟨Prov.chunk, u⟩ : Emission))) = [] := by
  induction l with
  | nil => rfl
  | cons c cs ih =>
    simp only [List.map_cons, pageUrls, isPageProv, List.filter_cons]
    simp only [pageUrls] at ih
    exact ih

theorem StepOK.refl (st : List String) : StepOK st [] st :=
  ⟨fun _ h => h, List.nodup_nil, fun u hu => by simp [pageUrls] at hu⟩

theorem StepOK.grow (st : List String) (u : String) : StepOK st [] (u :: st) :=
  ⟨fun _ h => by simp [h], List.nodup_nil, fun v hv => by simp [pageUrls] at hv⟩

theorem StepOK.comp {st st1 st2 : List String} {o1 o2 : List Emission}
    (h1 : StepOK st o1 st1) (h2 : StepOK st1 o2 st2) : StepOK st (o1 ++ o2) st2 := by
  obtain ⟨m1, n1, f1⟩ := h1
  obtain ⟨m2, n2, f2⟩ := h2
  refine ⟨fun u hu => m2 u (m1 u hu), ?_, ?_⟩
  · rw [pageUrls_append, List.nodup_append]
    refine ⟨n1, n2, ?_⟩
    intro u hu1 hu2
    exact (f2 u hu2).1 (f1 u hu1).2
  · intro u hu
    rw [pageUrls_append, List.mem_append] at hu
    rcases hu with hu | hu
    · exact ⟨(f1 u hu).1, m2 u (f1 u hu).2⟩
    · exact ⟨fun hm => (f2 u hu).1 (m1 u hm), (f2 u hu).2⟩

theorem StepOK.emit (st : List String) (p : Prov) (x : String)
    (hp : isPageProv p = true) (hx : x ∉ st) :
    StepOK st [⟨p, x⟩] (x :: st) := by
  refine ⟨fun u hu => by simp [hu], ?_, ?_⟩
  · simp [pageUrls, hp]
  · intro u hu
    simp [pageUrls, hp] at hu
    subst hu
    exact ⟨hx, by simp⟩

theorem StepOK.chunks (st : List String) (l : List String) :
    StepOK st (l.map (fun u => (⟨Prov.chunk, u⟩ : Emission))) st := by
  refine ⟨fun _ h => h, ?_, ?_⟩
  · rw [pageUrls_chunks]; exact List.nodup_nil
  · intro u hu
    rw [pageUrls_chunks] at hu
    cases hu

theorem textMatchStep_ok (pu : GoURL) (st : List String) (m : String) :
    StepOK st (textMatchStep pu st m).1 (textMatchStep pu st m).2 := by
  by_cases h1 : hasPfx m "//" = true
  · by_cases h2 : (pu.scheme ++ ":" ++ m) ∈ st
    · simpa [textMatchStep, h1, h2] using StepOK.refl st
    · simpa [textMatchStep, h1, h2] using
        StepOK.emit st Prov.inlineText (pu.scheme ++ ":" ++ m) rfl h2
  · have h1f : hasPfx m "//" = false := by simpa using h1
    by_cases h3 : hasPfx m "/" = true
    · by_cases h2 : (pu.scheme ++ "://" ++ pu.host ++ m) ∈ st
      · simpa [textMatchStep, h1f, h3, h2] using StepOK.refl st
      · simpa [textMatchStep, h1f, h3, h2] using
          StepOK.emit st Prov.inlineText (pu.scheme ++ "://" ++ pu.host ++ m) rfl h2
    · have h3f : hasPfx m "/" = false := by simpa using h3
      simpa [textMatchStep, h1f, h3f] using StepOK.refl st

theorem processTextMatches_ok (pu : GoURL) (st : List String) (ms : List String) :
    StepOK st (processTextMatches pu st ms).1 (processTextMatches pu st ms).2 := by
  induction ms generalizing st with
  | nil => exact StepOK.refl st
  | cons m ms ih =>
    simpa [processTextMatches] using
      StepOK.comp (textMatchStep_ok pu st m) (ih (textMatchStep pu st m).2)

theorem processScriptTag_ok (net : Net) (pu : GoURL) (st : List String) (tag : ScriptTag) :
    StepOK st (processScriptTag net pu st tag).1 (processScriptTag net pu st tag).2 := by
  rcases tag with ⟨src, text⟩
  cases src with
  | none => simpa [processScriptTag] using processTextMatches_ok pu st (findTextMatches text)
  | some js =>
    by_cases hjs : js = ""
    · simpa [processScriptTag, hjs] using processTextMatches_ok pu st (findTextMatches text)
    · by_cases hc : resolveScriptURL pu js ∈ st
      · simpa [processScriptTag, hjs, hc] using
          processTextMatches_ok pu st (findTextMatches text)
      · have hemit := StepOK.emit st Prov.scriptSrc (resolveScriptURL pu js) rfl hc
        by_cases hw : isWebpackBundle (resolveScriptURL pu js) = true
        · cases hb : net.fetchBundle (resolveScriptURL pu js) with
          | none => simpa [processScriptTag, hjs, hc, hw, hb] using hemit
          | some body =>
            have hchunks := StepOK.chunks (resolveScriptURL pu js :: st)
              (ProcessWebpackFile (resolveScriptURL pu js) body net.parseURL)
            have htext := processTextMatches_ok pu (resolveScriptURL pu js :: st)
              (findTextMatches text)
            have hcomp := StepOK.comp hemit (StepOK.comp hchunks htext)
            simpa [processScriptTag, hjs, hc, hw, hb] using hcomp
        · have hwf : isWebpackBundle (resolveScriptURL pu js) = false := by simpa using hw
          have htext := processTextMatches_ok pu (resolveScriptURL pu js :: st)
            (findTextMatches text)
          simpa [processScriptTag, hjs, hc, hwf] using
            StepOK.comp hemit htext

theorem processScripts_ok (net : Net) (pu : GoURL) (st : List String) (tags : List ScriptTag) :
    StepOK st (processScripts net pu st tags).1 (processScripts net pu st tags).2 := by
  induction tags generalizing st with
  | nil => exact StepOK.refl st
  | cons tag tags ih =>
    simpa [processScripts] using
      StepOK.comp (processScriptTag_ok net pu st tag) (ih (processScriptTag net pu st tag).2)

theorem processDivTag_ok (pu : GoURL) (st : List String) (attr : Option String) :
    StepOK st (processDivTag pu st attr).1 (processDivTag pu st attr).2 := by
  cases attr with
  | none => exact StepOK.refl st
  | some js =>
    by_cases hjs : js = ""
    · simpa [processDivTag, hjs] using StepOK.refl st
    · by_cases hc : resolveScriptURL pu js ∈ st
      · simpa [processDivTag, hjs, hc] using StepOK.refl st
      · simpa [processDivTag, hjs, hc] using
          StepOK.emit st Prov.divAttr (resolveScriptURL pu js) rfl hc

theorem processDivs_ok (pu : GoURL) (st : List String) (attrs : List (Option String)) :
    StepOK st (processDivs pu st attrs).1 (processDivs pu st attrs).2 := by
  induction attrs generalizing st with
  | nil => exact StepOK.refl st
  | cons attr attrs ih =>
    simpa [processDivs] using
      StepOK.comp (processDivTag_ok pu st attr) (ih (processDivTag pu st attr).2)

theorem processSeedBody_ok (net : Net) (st : List String) (u : String) :
    StepOK st (processSeedBody net st u).1 (processSeedBody net st u).2 := by
  rcases hfp : net.fetchPage u with _ | body
  · simp only [processSeedBody, hfp]
    exact StepOK.refl st
  · rcases hph : net.parseHTML body with _ | page
    · simp only [processSeedBody, hfp, hph]
      exact StepOK.refl st
    · rcases hpu : net.parseURL u with _ | pu
      · simp only [processSeedBody, hfp, hph, hpu]
        exact StepOK.refl st
      · have hcomp := StepOK.comp (processScripts_ok net pu st page.scripts)
          (processDivs_ok pu (processScripts net pu st page.scripts).2 page.divs)
        simpa [processSeedBody, hfp, hph, hpu] using hcomp

theorem processSeed_ok (net : Net) (st : List String) (u : String) :
    StepOK st (processSeed net st u).1 (processSeed net st u).2 := by
  by_cases hc : u ∈ st
  · simpa [processSeed, hc] using StepOK.refl st
  · simpa [processSeed, hc] using
      StepOK.comp (StepOK.grow st u) (processSeedBody_ok net (u :: st) u)

theorem processSeeds_ok (net : Net) (st : List String) (seeds : List String) :
    StepOK st (processSeeds net st seeds).1 (processSeeds net st seeds).2 := by
  induction seeds generalizing st with
  | nil => exact StepOK.refl st
  | cons u us ih =>
    simpa [processSeeds] using
      StepOK.comp (processSeed_ok net st u) (ih (processSeed net st u).2)

theorem processSeed_self_mem (net : Net) (st : List String) (u : String) :
    u ∈ (processSeed net st u).2 := by
  by_cases hc : u ∈ st
  · simp [processSeed, hc]
  · have hmem : u ∈ u :: st := by simp
    simpa [processSeed, hc] using
      (processSeedBody_ok net (u :: st) u).1 u hmem

theorem processSeeds_seeds_mem (net : Net) (st : List String) (seeds : List String) :
    ∀ u ∈ seeds, u ∈ (processSeeds net st seeds).2 := by
  induction seeds generalizing st with
  | nil => intro u hu; cases hu
  | cons v vs ih =>
    intro u hu
    rcases List.mem_cons.1 hu with rfl | hu
    · have h1 := processSeed_self_mem net st u
      have h2 := (processSeeds_ok net (processSeed net st u).2 vs).1 u h1
      simpa [processSeeds] using h2
    · simpa [processSeeds] using ih (processSeed net st v).2 u hu

/-! ## Lemmas for the bundle-local dedup set -/

theorem emitAll_spec (cands : List String) (st : List String) :
    (∀ u, u ∈ st → u ∈ (emitAll cands st).2) ∧ (emitAll cands st).1.Nodup ∧
      ∀ u, u ∈ (emitAll cands st).1 → u ∉ st ∧ u ∈ (emitAll cands st).2 := by
  induction cands generalizing st with
  | nil => exact ⟨fun _ h => h, List.nodup_nil, fun u hu => by cases hu⟩
  | cons c cs ih =>
    by_cases hc : c ∈ st
    · simpa [emitAll, hc] using ih st
    · obtain ⟨mono, nd, fresh⟩ := ih (c :: st)
      refine ⟨?_, ?_, ?_⟩
      · intro u hu
        simpa [emitAll, hc] using mono u (by simp [hu])
      · rw [emitAll, if_neg (contains_ne_true hc)]
        refine List.Nodup.cons ?_ nd
        intro hmem
        exact (fresh c hmem).1 (by simp)
      · intro u hu
        rw [emitAll, if_neg (contains_ne_true hc)] at hu
        rcases List.mem_cons.1 hu with rfl | hu
        · refine ⟨hc, ?_⟩
          have : u ∈ (emitAll cs (u :: st)).2 := mono u (by simp)
          simpa [emitAll, hc] using this
        · have hf := fresh u hu
          refine ⟨fun hmem => hf.1 (by simp [hmem]), ?_⟩
          simpa [emitAll, hc] using hf.2

theorem emitAll_subset (cands : List String) (st : List String) :
    ∀ u ∈ (emitAll cands st).1, u ∈ cands := by
  induction cands generalizing st with
  | nil => intro u hu; cases hu
  | cons c cs ih =>
    intro u hu
    by_cases hc : c ∈ st
    · rw [emitAll, if_pos (contains_eq_true hc)] at hu
      exact List.mem_cons_of_mem c (ih st u hu)
    · rw [emitAll, if_neg (contains_ne_true hc)] at hu
      rcases List.mem_cons.1 hu with rfl | hu
      · exact List.mem_cons_self u cs
      · exact List.mem_cons_of_mem c (ih (c :: st) u hu)
/-! ## The `_next` rooting of bundle-chunk URLs -/

theorem hasPfx_append_right (a b : String) : hasPfx (a ++ b) a = true :=
  (hasPfx_iff (a ++ b) a).2 ⟨b.data, by simp⟩

theorem ensureNextPfx_pfx (raw : String) :
    hasPfx (ensureNextPfx raw) "/_next/" = true ∨ hasPfx (ensureNextPfx raw) "_next/" = true := by
  by_cases h1 : hasPfx raw "/_next/" = true
  · rw [ensureNextPfx]
    simp [h1]
  · by_cases h2 : hasPfx raw "_next/" = true
    · rw [ensureNextPfx]
      simp [h2]
    · have h1f : hasPfx raw "/_next/" = false := by simpa using h1
      have h2f : hasPfx raw "_next/" = false := by simpa using h2
      rw [ensureNextPfx]
      simp only [h1f, h2f, Bool.not_false, Bool.and_self, if_true]
      by_cases h3 : hasPfx raw "/" = true
      · obtain ⟨t, ht⟩ := (hasPfx_iff raw "/").1 h3
        rw [if_pos h3]
        refine Or.inl ((hasPfx_iff _ _).2 ⟨t, ?_⟩)
        rw [String.data_append, ← ht]
        rfl
      · rw [if_neg (by simpa using h3)]
        exact Or.inl (hasPfx_append_right "/_next/" raw)

theorem resolve_nextRooted (base : GoURL) (q : String)
    (h : hasPfx q "/_next/" = true ∨ hasPfx q "_next/" = true) :
    ∃ p, resolveScriptURL base q = base.scheme ++ "://" ++ base.host ++ p ∧
      hasPfx p "/_next/" = true := by
  rcases h with h | h
  · obtain ⟨t, ht⟩ := (hasPfx_iff q "/_next/").1 h
    have hq : q.data = '/' :: '_' :: 'n' :: 'e' :: 'x' :: 't' :: '/' :: t := by
      rw [← ht]; rfl
    have b1 : hasPfx q "http://" = false :=
      hasPfx_head_ne q "http://" '/' _ 'h' _ hq rfl (by decide)
    have b2 : hasPfx q "https://" = false :=
      hasPfx_head_ne q "https://" '/' _ 'h' _ hq rfl (by decide)
    have b3 : hasPfx q "//" = false :=
      hasPfx_two_ne q "//" '/' '_' _ '/' [] hq rfl (by decide)
    have hsl : hasPfx q "/" = true :=
      (hasPfx_iff q "/").2 ⟨'_' :: 'n' :: 'e' :: 'x' :: 't' :: '/' :: t, by rw [hq]; rfl⟩
    refine ⟨q, ?_, h⟩
    rw [resolveScriptURL]
    simp [b1, b2, b3, h, hsl]
  · obtain ⟨t, ht⟩ := (hasPfx_iff q "_next/").1 h
    have hq : q.data = '_' :: 'n' :: 'e' :: 'x' :: 't' :: '/' :: t := by
      rw [← ht]; rfl
    have b1 : hasPfx q "http://" = false :=
      hasPfx_head_ne q "http://" '_' _ 'h' _ hq rfl (by decide)
    have b2 : hasPfx q "https://" = false :=
      hasPfx_head_ne q "https://" '_' _ 'h' _ hq rfl (by decide)
    have b3 : hasPfx q "//" = false :=
      hasPfx_head_ne q "//" '_' _ '/' _ hq rfl (by decide)
    have hsl : hasPfx q "/" = false :=
      hasPfx_head_ne q "/" '_' _ '/' [] hq rfl (by decide)
    refine ⟨"/" ++ q, ?_, ?_⟩
    · rw [resolveScriptURL]
      simp [b1, b2, b3, h, hsl]
    · refine (hasPfx_iff _ _).2 ⟨t, ?_⟩
      rw [String.data_append, hq]
      rfl

/-! ## Claim theorems -/

/-- Claim C9: every URL emitted by bundle-chunk extraction (any of the
four pattern families) is the scheme of the bundle URL, `://`, its host, and a
path beginning with `/_next/`, whatever the shape of the raw candidate
(`base` is the parse of the bundle URL, the two fields the code reads). -/
theorem C9_chunk_shape (base : GoURL) (content : String) (u : String)
    (hu : u ∈ processWebpackParsed base content) :
    ∃ p, u = base.scheme ++ "://" ++ base.host ++ p ∧ hasPfx p "/_next/" = true := by
  have hu1 : u ∈ (emitAll ((webpackCandidatePaths content).map
      (fun p => resolveScriptURL base (ensureNextPfx p))) []).1 := hu
  have hsub := emitAll_subset ((webpackCandidatePaths content).map
      (fun p => resolveScriptURL base (ensureNextPfx p))) [] u hu1
  obtain ⟨raw, _, hraw⟩ := List.mem_map.1 hsub
  obtain ⟨p, hp, hpfx⟩ := resolve_nextRooted base (ensureNextPfx raw) (ensureNextPfx_pfx raw)
  exact ⟨p, by rw [← hraw, hp], hpfx⟩

/-- Witness for C9: a candidate that itself looks like an absolute URL is
still re-rooted under `/_next/` on the bundle host. -/
theorem C9_witness :
    ∃ p, "https://ex.com/_next/https://evil.com/x.js" =
        "https" ++ "://" ++ "ex.com" ++ p ∧ hasPfx p "/_next/" = true :=
  C9_chunk_shape ⟨"https", "ex.com"⟩ "1===e?\x22https://evil.com/x.js\x22" _ (by decide)

/-- Counterexample to claim C1 as stated: `ProcessWebpackFile` tracks
duplicates only in a per-call `processedPaths` set, so the same chunk URL
referenced by two different bundles processed by one worker is sent
twice by that worker. -/
theorem C1_counterexample :
    fetchOutputs dupNet ["https://ex.com/"] =
      ["https://ex.com/w1webpack.js", "https://ex.com/_next/static/chunks/x.js",
       "https://ex.com/w2webpack.js", "https://ex.com/_next/static/chunks/x.js"] ∧
    (fetchOutputs dupNet ["https://ex.com/"]).count
      "https://ex.com/_next/static/chunks/x.js" = 2 :=
  ⟨by decide, by decide⟩

/-- Claim C1 (amended): within the run of one worker, the page-level emissions
(script `src`, inline text, div attribute — the ones checked against the
per-worker `processedURLs` set) are pairwise distinct, and within one
`ProcessWebpackFile` call the chunk emissions are pairwise distinct; a
chunk URL may however recur across bundle calls of the same worker or
duplicate a page-level emission. -/
theorem C1_amended_dedup_scopes :
    (∀ (net : Net) (seeds : List String), (pageUrls (fetch net seeds)).Nodup) ∧
    ∀ (base : GoURL) (content : String), (processWebpackParsed base content).Nodup := by
  constructor
  · intro net seeds
    exact (processSeeds_ok net [] seeds).2.1
  · intro base content
    exact (emitAll_spec ((webpackCandidatePaths content).map
      (fun p => resolveScriptURL base (ensureNextPfx p))) []).2.1

/-- Counterexample to claim C10 as stated: a bundle-chunk emission is only
deduplicated against the call-local set, so a worker can emit a URL equal
to the seed it pulled (here the seed itself reappears as a chunk of the
bundle found on its page). -/
theorem C10_counterexample :
    fetchOutputs selfNet [selfSeed] = ["https://ex.com/wwebpack.js", selfSeed] ∧
    selfSeed ∈ fetchOutputs selfNet [selfSeed] :=
  ⟨by decide, by decide⟩

/-- Claim C10 (amended): a worker never emits, via the page-level
extraction rules (script `src`, inline text, div attribute), a URL equal
to the seed it is processing or to any seed it pulled earlier; the seed is
marked in `processedURLs` before extraction.  Bundle-chunk emissions are
exempt (see the C10 counterexample). -/
theorem C10_page_level_no_seed (net : Net) (s1 : List String) (u v : String)
    (hv : v ∈ pageUrls (processSeed net (processSeeds net [] s1).2 u).1) :
    v ≠ u ∧ v ∉ s1 := by
  by_cases hc : u ∈ (processSeeds net [] s1).2
  · simp [processSeed, hc, pageUrls] at hv
  · rw [processSeed, if_neg (contains_ne_true hc)] at hv
    have hfr := (processSeedBody_ok net (u :: (processSeeds net [] s1).2) u).2.2 v hv
    have hnotin := hfr.1
    refine ⟨fun he => hnotin (by simp [he]), fun hs => hnotin ?_⟩
    exact List.mem_cons_of_mem u (processSeeds_seeds_mem net [] s1 v hs)

/-- Witness for the amended C10 at a concrete one-seed run. -/
theorem C10_witness :
    "https://a/x.js" ≠ "https://a/" ∧ "https://a/x.js" ∉ ([] : List String) :=
  C10_page_level_no_seed wNet [] "https://a/" "https://a/x.js" (by decide)

/-- Claim C2: the end-to-end scenario — seed page `https://ex.com/` whose
parsed HTML has one script with `src="/_next/static/chunks/webpack-abc.js"`
and whose fetched bundle body is `123===e?"static/chunks/123-xyz.js"` —
emits exactly the bundle URL followed by the chunk URL. -/
theorem C2_end_to_end :
    fetchOutputs exNet ["https://ex.com/"] =
      ["https://ex.com/_next/static/chunks/webpack-abc.js",
       "https://ex.com/_next/static/chunks/123-xyz.js"] := by
  decide

/-- Claim C3: in bundle pattern 2, every id of the parsed hash map yields
the candidate `static/chunks/<name>.<hash>.js` with `<name>` the id-map
entry when present and the raw id otherwise; in particular id-map
`{1:"a"}` with hash-map `{1:"h1",2:"h2"}` yields exactly the candidates
`static/chunks/a.h1.js` and `static/chunks/2.h2.js`. -/
theorem C3_pattern2_candidates :
    (∀ (content idMapStr hashMapStr id hash : String),
        complexScan content = some (idMapStr, hashMapStr) →
        (id, hash) ∈ parseJSMap hashMapStr →
        ("static/chunks/" ++ (((parseJSMap idMapStr).lookup id).getD id) ++ "." ++
            hash ++ ".js") ∈ pattern2Candidates content) ∧
    pattern2Candidates c3content = ["static/chunks/a.h1.js", "static/chunks/2.h2.js"] := by
  constructor
  · intro content idMapStr hashMapStr id hash hscan hmem
    simp only [pattern2Candidates, hscan]
    exact List.mem_map.2 ⟨(id, hash), hmem, rfl⟩
  · decide

/-- Witness for C3: the fallback id `2` of the concrete scenario. -/
theorem C3_witness : ("static/chunks/2.h2.js" : String) ∈ pattern2Candidates c3content := by
  have h := C3_pattern2_candidates.1 c3content "1:\x22a\x22" "1:\x22h1\x22,2:\x22h2\x22"
    "2" "h2" (by decide) (by decide)
  exact h

/-- Claim C4: `Run` returns an error exactly when an input file is
configured and cannot be opened; a per-URL failure (request construction,
transport or body read — `fetchPage`; HTML parse — `parseHTML`; URL parse
— `parseURL`) contributes no output and the run still completes,
emitting what was discovered. -/
theorem C4_run_error_policy :
    (∀ (opts : Options) (fs : String → Option (List String)) (stdin : List String) (net : Net),
        (∃ e, Run opts fs stdin net = Except.error e) ↔
          opts.inputFile ≠ "" ∧ fs opts.inputFile = none) ∧
    ∀ (net : Net) (st : List String) (u : String),
        net.fetchPage u = none ∨
          (∃ b, net.fetchPage u = some b ∧ net.parseHTML b = none) ∨
          net.parseURL u = none →
        (processSeed net st u).1 = [] := by
  constructor
  · intro opts fs stdin net
    constructor
    · rintro ⟨e, he⟩
      by_cases hif : opts.inputFile = ""
      · rw [Run, if_pos hif] at he
        cases he
      · rw [Run, if_neg hif] at he
        rcases hfs : fs opts.inputFile with _ | ls
        · exact ⟨hif, rfl⟩
        · rw [hfs] at he
          cases he
    · rintro ⟨hif, hfs⟩
      refine ⟨"Could not open input file", ?_⟩
      rw [Run, if_neg hif, hfs]
  · intro net st u h
    by_cases hc : u ∈ st
    · simp [processSeed, hc]
    · rw [processSeed, if_neg (contains_ne_true hc)]
      rcases h with h | ⟨b, hb, hph⟩ | h
      · simp [processSeedBody, h]
      · simp [processSeedBody, hb, hph]
      · rcases hfp : net.fetchPage u with _ | b
        · simp [processSeedBody, hfp]
        · rcases hph : net.parseHTML b with _ | page
          · simp [processSeedBody, hfp, hph]
          · simp [processSeedBody, hfp, hph, h]

/-- Witness for C4: an unopenable input file is the error case, and a
seed whose fetch fails contributes nothing. -/
theorem C4_witness :
    (∃ e, Run ⟨"urls.txt", 1, 10, ""⟩ (fun _ => none) [] wNet = Except.error e) ∧
    (processSeed wNet [] "nosuch").1 = [] := by
  constructor
  · exact (C4_run_error_policy.1 ⟨"urls.txt", 1, 10, ""⟩ (fun _ => none) [] wNet).2
      ⟨by decide, rfl⟩
  · exact C4_run_error_policy.2 wNet [] "nosuch" (Or.inl (by decide))

/-! ## Inline-text match handling (C8) -/

theorem textMatchStep_out (pu : GoURL) (st : List String) (m : String) :
    ∀ e ∈ (textMatchStep pu st m).1,
      (hasPfx m "//" = true ∧ e.url = pu.scheme ++ ":" ++ m) ∨
      (hasPfx m "//" = false ∧ hasPfx m "/" = true ∧
        e.url = pu.scheme ++ "://" ++ pu.host ++ m) := by
  intro e he
  by_cases h1 : hasPfx m "//" = true
  · by_cases h2 : (pu.scheme ++ ":" ++ m) ∈ st
    · simp [textMatchStep, h1, h2] at he
    · simp [textMatchStep, h1, h2] at he
      exact Or.inl ⟨h1, by rw [he]⟩
  · have h1f : hasPfx m "//" = false := by simpa using h1
    by_cases h3 : hasPfx m "/" = true
    · by_cases h2 : (pu.scheme ++ "://" ++ pu.host ++ m) ∈ st
      · simp [textMatchStep, h1f, h3, h2] at he
      · simp [textMatchStep, h1f, h3, h2] at he
        exact Or.inr ⟨h1f, h3, by rw [he]⟩
    · have h3f : hasPfx m "/" = false := by simpa using h3
      simp [textMatchStep, h1f, h3f] at he

theorem textMatchStep_mark1 (pu : GoURL) (st : List String) (m : String)
    (h : hasPfx m "//" = true) :
    (pu.scheme ++ ":" ++ m) ∈ (textMatchStep pu st m).2 := by
  by_cases h2 : (pu.scheme ++ ":" ++ m) ∈ st <;> simp [textMatchStep, h, h2]

theorem textMatchStep_mark2 (pu : GoURL) (st : List String) (m : String)
    (h1 : hasPfx m "//" = false) (h3 : hasPfx m "/" = true) :
    (pu.scheme ++ "://" ++ pu.host ++ m) ∈ (textMatchStep pu st m).2 := by
  by_cases h2 : (pu.scheme ++ "://" ++ pu.host ++ m) ∈ st <;>
    simp [textMatchStep, h1, h3, h2]

/-- Claim C8: every emission of the inline-text loop comes from a match
beginning with `//` (resolved against the page scheme) or with `/` but
not `//` (resolved against scheme and host); a match with neither prefix
is never emitted.  The resolved form of each prefixed match is recorded in
the per-worker dedup set afterwards — it is emitted now unless the set
already held it (the dedup guarantee of spec §4.2). -/
theorem C8_text_matches (pu : GoURL) (st : List String) (ms : List String) :
    (∀ e ∈ (processTextMatches pu st ms).1, ∃ m, m ∈ ms ∧
        ((hasPfx m "//" = true ∧ e.url = pu.scheme ++ ":" ++ m) ∨
         (hasPfx m "//" = false ∧ hasPfx m "/" = true ∧
           e.url = pu.scheme ++ "://" ++ pu.host ++ m))) ∧
    (∀ m ∈ ms, hasPfx m "//" = true →
        (pu.scheme ++ ":" ++ m) ∈ (processTextMatches pu st ms).2) ∧
    ∀ m ∈ ms, hasPfx m "//" = false → hasPfx m "/" = true →
        (pu.scheme ++ "://" ++ pu.host ++ m) ∈ (processTextMatches pu st ms).2 := by
  induction ms generalizing st with
  | nil =>
    refine ⟨?_, ?_, ?_⟩
    · intro e he
      simp [processTextMatches] at he
    · intro m hm
      cases hm
    · intro m hm
      cases hm
  | cons m0 ms ih =>
    obtain ⟨ihout, ihm1, ihm2⟩ := ih (textMatchStep pu st m0).2
    refine ⟨?_, ?_, ?_⟩
    · intro e he
      simp only [processTextMatches, List.mem_append] at he
      rcases he with he | he
      · exact ⟨m0, by simp, textMatchStep_out pu st m0 e he⟩
      · obtain ⟨m, hm, hshape⟩ := ihout e he
        exact ⟨m, by simp [hm], hshape⟩
    · intro m hm hpf
      rcases List.mem_cons.1 hm with rfl | hm
      · have hmark := textMatchStep_mark1 pu st m hpf
        have hmono := (processTextMatches_ok pu (textMatchStep pu st m).2 ms).1 _ hmark
        simpa [processTextMatches] using hmono
      · simpa [processTextMatches] using ihm1 m hm hpf
    · intro m hm hpf1 hpf3
      rcases List.mem_cons.1 hm with rfl | hm
      · have hmark := textMatchStep_mark2 pu st m hpf1 hpf3
        have hmono := (processTextMatches_ok pu (textMatchStep pu st m).2 ms).1 _ hmark
        simpa [processTextMatches] using hmono
      · simpa [processTextMatches] using ihm2 m hm hpf1 hpf3

/-- Witness for C8 on a one-match list. -/
theorem C8_witness :
    ("https" ++ ":" ++ "//a.js") ∈ (processTextMatches ⟨"https", "h"⟩ [] ["//a.js"]).2 :=
  (C8_text_matches ⟨"https", "h"⟩ [] ["//a.js"]).2.1 "//a.js" (by simp) (by decide)

end Subjs
